import Mathlib

/-!
Verification development for the simple weather chat application.

The Python sources are shallowly embedded over `List Char` (Python `str`),
a `JVal` type for decoded JSON documents (Python `json.loads` results), and
pure functions.  Side effects (HTTP requests, the MCP channel, the model
token stream) are represented by explicit oracle parameters together with a
request counter, so that "performs no external call" is the statement that
the counter component of the result is zero.

Sources embedded here:
  chat_service/llama_client.py   : extractToolCall, streamChatL
  chat_service/chat_handler.py   : extractFunctionCall, streamChatC
  mcp_client/chat_handler.py     : callTool, handleToolCall
  mcp_server/tools/weather_tool.py : executeTool
-/

/-! ### Python string helpers -/

/-- Python whitespace class for `str.strip`, `str.split()` and the regex
class backslash-s (ASCII part: space, tab, newline, carriage return,
vertical tab, form feed). -/
def isPyWs (c : Char) : Bool :=
  c.toNat == 32 || (9 ≤ c.toNat && c.toNat ≤ 13)

/-- Python word-constituent class (regex backslash-w, ASCII part). -/
def isWordChar (c : Char) : Bool :=
  c.isAlpha || c.isDigit || c == '_'

/-- Python `str.strip()`: drop whitespace from both ends. -/
def stripWs (s : List Char) : List Char :=
  ((s.dropWhile isPyWs).reverse.dropWhile isPyWs).reverse

/-- Helper for `collapseWs`; the flag records whether the previous character
was whitespace (so that a run contributes a single space). -/
def collapseAux : Bool → List Char → List Char
  | _, [] => []
  | inWs, c :: cs =>
    if isPyWs c then
      if inWs then collapseAux true cs else ' ' :: collapseAux true cs
    else c :: collapseAux false cs

/-- Python `re.sub(r"\s+", " ", s)`: replace every maximal whitespace run
by a single space. -/
def collapseWs (s : List Char) : List Char := collapseAux false s

/-- llama_client cleanup: `re.sub(r"\s+", " ", s.strip())`. -/
def normWs (s : List Char) : List Char := collapseWs (stripWs s)

/-- chat_handler cleanup: `re.sub(r"\s+", " ", s).strip()`. -/
def normWs2 (s : List Char) : List Char := stripWs (collapseWs s)

/-- Helper for `splitWs`; `acc` is the current word, reversed. -/
def splitWsAux : List Char → List Char → List (List Char)
  | acc, [] => if acc.isEmpty then [] else [acc.reverse]
  | acc, c :: cs =>
    if isPyWs c then
      if acc.isEmpty then splitWsAux [] cs else acc.reverse :: splitWsAux [] cs
    else splitWsAux (c :: acc) cs

/-- Python `str.split()` with no arguments: whitespace-separated words,
empty strings omitted. -/
def splitWs (s : List Char) : List (List Char) := splitWsAux [] s

/-- Python `str.strip(q)` for the single character `q`. -/
def stripChar (q : Char) (s : List Char) : List Char :=
  ((s.dropWhile (· == q)).reverse.dropWhile (· == q)).reverse

/-- Python `str.split(sep)` for a one-character separator (full split). -/
def splitOnChar (sep : Char) : List Char → List (List Char)
  | [] => [[]]
  | c :: cs =>
    if c == sep then [] :: splitOnChar sep cs
    else
      match splitOnChar sep cs with
      | h :: t => (c :: h) :: t
      | [] => [[c]]

/-- Python `str.upper()` (ASCII part). -/
def upperStr (s : List Char) : List Char := s.map Char.toUpper

/-- The single-quote character, used by several Python message strings. -/
def sqc : Char := Char.ofNat 39

/-! ### Decoded JSON documents

`JVal` is the result type of Python `json.loads`.  Numbers keep their
source lexeme: no claim depends on numeric values beyond zero-ness, and
this avoids committing the model to a floating-point representation.
Objects keep their members in insertion order, duplicates included;
`jlookup` implements the resulting dict lookup (the later binding of a
repeated key wins, as in Python). -/

inductive JVal where
  | null
  | bool (b : Bool)
  | num (lex : List Char)
  | str (s : List Char)
  | arr (elems : List JVal)
  | obj (mems : List (List Char × JVal))

/-- Python dict lookup for an insertion-ordered member list: the last
binding of a key wins. -/
def jlookup : List (List Char × JVal) → List Char → Option JVal
  | [], _ => none
  | (k, v) :: rest, key =>
    match jlookup rest key with
    | some r => some r
    | none => if k == key then some v else none

/-- True when a JSON number lexeme denotes zero: it has at least one digit
and every mantissa digit is `0` (`NaN` and `Infinity` have no digits and
therefore do not denote zero). -/
def numIsZero (lex : List Char) : Bool :=
  let l := if lex.head? == some '-' then lex.tail else lex
  let mant := l.takeWhile (fun c => !(c == 'e' || c == 'E'))
  mant.any (fun c => c.isDigit) && mant.all (fun c => !c.isDigit || c == '0')

/-- Python truthiness of a decoded JSON value (`bool(x)`). -/
def JVal.truthy : JVal → Bool
  | .null => false
  | .bool b => b
  | .num lex => !(numIsZero lex)
  | .str s => !s.isEmpty
  | .arr xs => !xs.isEmpty
  | .obj ms => !ms.isEmpty

mutual

/-- An approximation of Python `repr(x)` for a decoded JSON value
(strings in single quotes, containers in Python literal syntax). -/
def pyRepr : JVal → List Char
  | .null => "None".toList
  | .bool true => "True".toList
  | .bool false => "False".toList
  | .num lex => lex
  | .str s => sqc :: s ++ [sqc]
  | .arr es => '[' :: pyReprList es ++ [']']
  | .obj ms => '\x7b' :: pyReprMems ms ++ ['\x7d']

def pyReprList : List JVal → List Char
  | [] => []
  | [x] => pyRepr x
  | x :: xs => pyRepr x ++ ',' :: ' ' :: pyReprList xs

def pyReprMems : List (List Char × JVal) → List Char
  | [] => []
  | [(k, v)] => pyRepr (.str k) ++ ':' :: ' ' :: pyRepr v
  | (k, v) :: ms => pyRepr (.str k) ++ ':' :: ' ' :: pyRepr v ++ ',' :: ' ' :: pyReprMems ms

end

/-- An approximation of Python `str(x)` for a decoded JSON value, used only
to build the unknown-tool error message text. -/
def pyStr : JVal → List Char
  | .str s => s
  | v => pyRepr v

/-! ### The JSON parser (Python `json.loads`)

A recursive-descent parser over `List Char`, faithful to the default
`json.loads`: JSON whitespace, the object / array / string / number /
constant grammar, strict rejection of raw control characters in strings,
the escape set with `uXXXX` (surrogate pairs combined; a lone surrogate,
which Lean characters cannot carry, is replaced by U+FFFD), the Python
extensions `NaN`, `Infinity` and `-Infinity`, and the requirement that the
whole input be consumed.  `fuel` only forces termination: every call
spends one unit, and charging each call to a consumed character shows at
most three units are ever spent per character (the deepest spend is
`pValue` into `pArrBody` into `pElems` for one opening bracket, or
`pValue` into `pObjBody` into `pMembers` for one opening brace; every
other call consumes a character of its own first), so the bound
`3 * length + 8` used by `jsonParse` never fails a document the Python
parser accepts. -/

/-- JSON whitespace (the four characters skipped by `json.loads`). -/
def isJsonWs (c : Char) : Bool :=
  c.toNat == 32 || c.toNat == 9 || c.toNat == 10 || c.toNat == 13

def skipJsonWs (s : List Char) : List Char := s.dropWhile isJsonWs

def hexVal (c : Char) : Option Nat :=
  let n := c.toNat
  if 48 ≤ n && n ≤ 57 then some (n - 48)
  else if 97 ≤ n && n ≤ 102 then some (n - 87)
  else if 65 ≤ n && n ≤ 70 then some (n - 55)
  else none

/-- Parse the body of a JSON string (the opening quote already consumed);
returns the decoded characters and the input after the closing quote. -/
def pStringBody : Nat → List Char → Option (List Char × List Char)
  | 0, _ => none
  | _, [] => none
  | fuel + 1, c :: cs =>
    if c == '"' then some ([], cs)
    else if c == '\\' then
      match cs with
      | [] => none
      | e :: cs2 =>
        let cont := fun (ch : Char) (rest : List Char) =>
          (pStringBody fuel rest).map fun pr => (ch :: pr.1, pr.2)
        if e == '"' then cont '"' cs2
        else if e == '\\' then cont '\\' cs2
        else if e == '/' then cont '/' cs2
        else if e == 'b' then cont (Char.ofNat 8) cs2
        else if e == 'f' then cont (Char.ofNat 12) cs2
        else if e == 'n' then cont '\n' cs2
        else if e == 'r' then cont (Char.ofNat 13) cs2
        else if e == 't' then cont '\t' cs2
        else if e == 'u' then
          match cs2 with
          | a :: b :: c3 :: d :: cs3 =>
            match hexVal a, hexVal b, hexVal c3, hexVal d with
            | some ha, some hb, some hc, some hd =>
              let n := ((ha * 16 + hb) * 16 + hc) * 16 + hd
              if 0xD800 ≤ n && n ≤ 0xDBFF then
                match cs3 with
                | '\\' :: 'u' :: a2 :: b2 :: c4 :: d2 :: cs4 =>
                  match hexVal a2, hexVal b2, hexVal c4, hexVal d2 with
                  | some la, some lb, some lc, some ld =>
                    let m := ((la * 16 + lb) * 16 + lc) * 16 + ld
                    if 0xDC00 ≤ m && m ≤ 0xDFFF then
                      cont (Char.ofNat (0x10000 + (n - 0xD800) * 0x400 + (m - 0xDC00))) cs4
                    else cont (Char.ofNat 0xFFFD) cs3
                  | _, _, _, _ => cont (Char.ofNat 0xFFFD) cs3
                | _ => cont (Char.ofNat 0xFFFD) cs3
              else if 0xDC00 ≤ n && n ≤ 0xDFFF then cont (Char.ofNat 0xFFFD) cs3
              else cont (Char.ofNat n) cs3
            | _, _, _, _ => none
          | _ => none
        else none
    else if c.toNat < 0x20 then none
    else (pStringBody fuel cs).map fun pr => (c :: pr.1, pr.2)

/-- Parse a JSON number lexeme (`-? int frac? exp?`); returns the lexeme. -/
def pNumber (s : List Char) : Option (List Char × List Char) :=
  let (sign, s1) :=
    match s with
    | '-' :: rest => (['-'], rest)
    | _ => (([] : List Char), s)
  match s1 with
  | '0' :: rest => afterInt sign ['0'] rest
  | c :: _ =>
    if c.isDigit then
      afterInt sign (s1.takeWhile Char.isDigit) (s1.dropWhile Char.isDigit)
    else none
  | [] => none
where
  afterInt (sign intPart : List Char) (r : List Char) : Option (List Char × List Char) :=
    match r with
    | '.' :: r2 =>
      let frac := r2.takeWhile Char.isDigit
      if frac.isEmpty then none
      else afterFrac (sign ++ intPart ++ '.' :: frac) (r2.dropWhile Char.isDigit)
    | _ => afterFrac (sign ++ intPart) r
  afterFrac (lex : List Char) (r : List Char) : Option (List Char × List Char) :=
    match r with
    | e :: r2 =>
      if e == 'e' || e == 'E' then
        let (es, r3) :=
          match r2 with
          | '+' :: r3 => ([e, '+'], r3)
          | '-' :: r3 => ([e, '-'], r3)
          | _ => ([e], r2)
        let ds := r3.takeWhile Char.isDigit
        if ds.isEmpty then none
        else some (lex ++ es ++ ds, r3.dropWhile Char.isDigit)
      else some (lex, r)
    | [] => some (lex, r)

mutual

/-- Parse one JSON value at the head of the input (no leading whitespace). -/
def pValue : Nat → List Char → Option (JVal × List Char)
  | 0, _ => none
  | fuel + 1, s =>
    match s with
    | [] => none
    | c :: cs =>
      if c == '\x7b' then pObjBody fuel cs
      else if c == '[' then pArrBody fuel cs
      else if c == '"' then (pStringBody fuel cs).map fun pr => (JVal.str pr.1, pr.2)
      else
        match s with
        | 't' :: 'r' :: 'u' :: 'e' :: r => some (JVal.bool true, r)
        | 'f' :: 'a' :: 'l' :: 's' :: 'e' :: r => some (JVal.bool false, r)
        | 'n' :: 'u' :: 'l' :: 'l' :: r => some (JVal.null, r)
        | 'N' :: 'a' :: 'N' :: r => some (JVal.num ("NaN".toList), r)
        | 'I' :: 'n' :: 'f' :: 'i' :: 'n' :: 'i' :: 't' :: 'y' :: r =>
          some (JVal.num ("Infinity".toList), r)
        | '-' :: 'I' :: 'n' :: 'f' :: 'i' :: 'n' :: 'i' :: 't' :: 'y' :: r =>
          some (JVal.num ("-Infinity".toList), r)
        | _ =>
          if c == '-' || c.isDigit then
            (pNumber s).map fun pr => (JVal.num pr.1, pr.2)
          else none

/-- Parse an object body (the opening brace already consumed). -/
def pObjBody : Nat → List Char → Option (JVal × List Char)
  | 0, _ => none
  | fuel + 1, s =>
    match skipJsonWs s with
    | '\x7d' :: r => some (JVal.obj [], r)
    | s1 => pMembers fuel s1 []

/-- Parse object members starting at a key; `acc` holds earlier members. -/
def pMembers : Nat → List Char → List (List Char × JVal) →
    Option (JVal × List Char)
  | 0, _, _ => none
  | fuel + 1, s, acc =>
    match s with
    | '"' :: cs =>
      match pStringBody fuel cs with
      | none => none
      | some (key, r1) =>
        match skipJsonWs r1 with
        | ':' :: r2 =>
          match pValue fuel (skipJsonWs r2) with
          | none => none
          | some (v, r3) =>
            let acc2 := acc ++ [(key, v)]
            match skipJsonWs r3 with
            | ',' :: r4 => pMembers fuel (skipJsonWs r4) acc2
            | '\x7d' :: r4 => some (JVal.obj acc2, r4)
            | _ => none
        | _ => none
    | _ => none

/-- Parse an array body (the opening bracket already consumed). -/
def pArrBody : Nat → List Char → Option (JVal × List Char)
  | 0, _ => none
  | fuel + 1, s =>
    match skipJsonWs s with
    | ']' :: r => some (JVal.arr [], r)
    | s1 => pElems fuel s1 []

/-- Parse array elements starting at a value; `acc` holds earlier ones. -/
def pElems : Nat → List Char → List JVal → Option (JVal × List Char)
  | 0, _, _ => none
  | fuel + 1, s, acc =>
    match pValue fuel s with
    | none => none
    | some (v, r1) =>
      let acc2 := acc ++ [v]
      match skipJsonWs r1 with
      | ',' :: r2 => pElems fuel (skipJsonWs r2) acc2
      | ']' :: r2 => some (JVal.arr acc2, r2)
      | _ => none

end

/-- Python `json.loads`: parse a complete document, requiring the whole
input to be consumed (up to trailing whitespace). -/
def jsonParse (s : List Char) : Option JVal :=
  match pValue (3 * s.length + 8) (skipJsonWs s) with
  | some (v, rest) => if (skipJsonWs rest).isEmpty then some v else none
  | none => none

/-! ### llama_client._extract_tool_call

`text.find("\x7b")` followed by a depth-counting scan for the matching
closing brace; the first balanced candidate is parsed with `json.loads`;
on success the candidate span is cut out of the text and the rest is
whitespace-normalised; on any failure the text is returned unchanged. -/

/-- Characters before the first opening brace (`str.find` region). -/
def notBrace (c : Char) : Bool := !(c == '\x7b')

/-- The scan of `_extract_tool_call`: starting at depth `d`, consume input
until the depth returns to zero at a closing brace; returns the consumed
span (candidate) and the remaining input, or `none` when the depth never
returns to zero (unterminated candidate). -/
def scanSpan : Int → List Char → Option (List Char × List Char)
  | _, [] => none
  | d, c :: cs =>
    if c == '\x7b' then
      match scanSpan (d + 1) cs with
      | some (p, r) => some (c :: p, r)
      | none => none
    else if c == '\x7d' then
      if d - 1 = 0 then some ([c], cs)
      else
        match scanSpan (d - 1) cs with
        | some (p, r) => some (c :: p, r)
        | none => none
    else
      match scanSpan d cs with
      | some (p, r) => some (c :: p, r)
      | none => none

/-- The candidate span considered by `_extract_tool_call`: the balanced
brace span starting at the first opening brace of the text, together with
the text after it.  `none` when the text has no opening brace or the span
never closes. -/
def candidateOf (text : List Char) : Option (List Char × List Char) :=
  let rest := text.dropWhile notBrace
  if rest.isEmpty then none else scanSpan 0 rest

/-- `LlamaClient._extract_tool_call`.  Result triple: the value under
`tool_name` (absent keys give Python `None`), the value under
`parameters` (defaulted to the empty dict) and the remaining text.  The
`some _` fallback arm is unreachable: a parsed candidate that starts with
an opening brace is always an object. -/
def extractToolCall (text : List Char) : Option JVal × Option JVal × List Char :=
  match candidateOf text with
  | none => (none, none, text)
  | some (cand, after) =>
    match jsonParse cand with
    | none => (none, none, text)
    | some (JVal.obj mems) =>
      (jlookup mems ("tool_name".toList),
       some ((jlookup mems ("parameters".toList)).getD (JVal.obj [])),
       normWs (text.takeWhile notBrace ++ after))
    | some _ => (none, none, text)

/-- Brace-nesting depth contributed by a span: opening braces minus
closing braces. -/
def depthOf (s : List Char) : Int :=
  (s.countP (· == '\x7b') : Int) - (s.countP (· == '\x7d') : Int)

/-- Every nonempty proper prefix of `s` has positive brace depth: the span
closes only where the depth returns to zero, never at an earlier closing
brace. -/
def properPrefixesPos (s : List Char) : Bool :=
  s.inits.all fun q => q.isEmpty || q == s || decide (1 ≤ depthOf q)

/-! ### ChatService._extract_function_call

A model of `re.search(r'(\w+)\s*\(\s*([^)]*)\s*\)', text)`: the leftmost
maximal word run followed (after optional whitespace) by an opening
parenthesis with some closing parenthesis after it matches; the argument
group runs to the first closing parenthesis.  Group 2 is only ever used
stripped, so the inner whitespace of the pattern is immaterial. -/

/-- Regex search loop; `consumed` holds the text before the current
position, reversed.  The engine tries every start position from the left:
a position matches when it starts a word run followed (after optional
whitespace) by an opening parenthesis with a closing parenthesis somewhere
after it; on failure the scan advances one position, as the regex engine
does.  Returns text-before, the function name (the whole word run — a
match starting inside a run succeeds only if the run start does, so the
leftmost match always starts at a run start), the raw argument span and
the text-after. -/
def scanCall : List Char → List Char →
    Option (List Char × List Char × List Char × List Char)
  | _, [] => none
  | consumed, c :: cs =>
    if isWordChar c then
      match (cs.dropWhile isWordChar).dropWhile isPyWs with
      | '(' :: rest3 =>
        if rest3.contains ')' then
          some (consumed.reverse, c :: cs.takeWhile isWordChar,
                rest3.takeWhile (fun x => !(x == ')')),
                (rest3.dropWhile (fun x => !(x == ')'))).tail)
        else scanCall (c :: consumed) cs
      | _ => scanCall (c :: consumed) cs
    else scanCall (c :: consumed) cs

/-- Python dict assignment `d[k] = v`: replace in place or append. -/
def dictInsert (d : List (List Char × List Char)) (k v : List Char) :
    List (List Char × List Char) :=
  if d.any (fun p => p.1 == k) then d.map fun p => if p.1 == k then (k, v) else p
  else d ++ [(k, v)]

/-- The parameter-parsing block of `_extract_function_call` applied to the
raw argument span. -/
def parseCallParams (content : List Char) : List (List Char × List Char) :=
  let ps := stripWs content
  if ps.head? == some '"' && ps.getLast? == some '"' then
    [("location".toList, (ps.drop 1).dropLast)]
  else if ps.contains '=' then
    (splitOnChar ',' ps).foldl
      (fun d piece =>
        if piece.contains '=' then
          dictInsert d (stripWs (piece.takeWhile (fun c => !(c == '='))))
            (stripChar '"' (stripWs ((piece.dropWhile (fun c => !(c == '='))).tail)))
        else d) []
  else [("location".toList, stripChar '"' ps)]

/-- `ChatService._extract_function_call`: result triple of the function
name, the parameter dict and the cleaned remaining text.  Nothing in the
parameter block can raise, so the `except` of the source is dead. -/
def extractFunctionCall (text : List Char) :
    Option (List Char) × Option (List (List Char × List Char)) × List Char :=
  match scanCall [] text with
  | none => (none, none, text)
  | some (bef, name, content, aft) =>
    (some name, some (parseCallParams content), normWs2 (bef ++ aft))

/-! ### mcp_server/tools/weather_tool.execute_tool

HTTP is an oracle: `geo` receives the geocoding query string and `current`
the latitude/longitude values; each returns the decoded `.json()` body or
a raised requests error message.  The `Nat` component of every result is
the number of HTTP requests issued.  `Except.error` is a Python exception
propagating out of `execute_tool` (the lookups after the through-`try`
block are unprotected in the source). -/

structure HttpOracle where
  geo : List Char → Except (List Char) JVal
  current : JVal → JVal → Except (List Char) JVal

/-- `{"error": msg}` -/
def errObj (msg : List Char) : JVal := JVal.obj [("error".toList, JVal.str msg)]

def locFormatMsg : List Char :=
  "Location must be ".toList ++ sqc :: "City, CC".toList ++ sqc ::
    " (e.g. ".toList ++ sqc :: "San Juan, PR".toList ++ sqc :: ")".toList

def ccFormatMsg : List Char := "Country/state code must be two letters".toList

def owmFormatMsg : List Char := "Unexpected response format from OpenWeather".toList

/-- `loc.split(",", 1)[0].strip()` -/
def locCity (loc : List Char) : List Char :=
  stripWs (loc.takeWhile (fun c => !(c == ',')))

/-- `loc.split(",", 1)[1].strip()` -/
def locCC (loc : List Char) : List Char :=
  stripWs ((loc.dropWhile (fun c => !(c == ','))).tail)

/-- Zero-padded decimal rendering (`strftime` field). -/
def pad (width : Nat) (n : Nat) : List Char :=
  let ds := Nat.toDigits 10 n
  List.replicate (width - ds.length) '0' ++ ds

/-- Civil date from days since the Unix epoch (standard era-based
algorithm, C-style truncating division as in Lean `Int` division). -/
def civilFromDays (z0 : Int) : Int × Int × Int :=
  let z := z0 + 719468
  let era := (if 0 ≤ z then z else z - 146096) / 146097
  let doe := z - era * 146097
  let yoe := (doe - doe / 1460 + doe / 36524 - doe / 146096) / 365
  let doy := doe - (365 * yoe + yoe / 4 - yoe / 100)
  let mp := (5 * doy + 2) / 153
  let d := doy - (153 * mp + 2) / 5 + 1
  let m := if mp < 10 then mp + 3 else mp - 9
  (era * 400 + yoe + (if m ≤ 2 then 1 else 0), m, d)

/-- `datetime.utcfromtimestamp(q).strftime("%Y-%m-%d %H:%M")`, at whole
seconds (sub-second microsecond rounding of `datetime` is below the
minute resolution printed here). -/
def fmtUtcMinutes (q : ℚ) : List Char :=
  let secs : Int := ⌊q⌋
  let days := secs.ediv 86400
  let rem := (secs.emod 86400).toNat
  let ymd := civilFromDays days
  pad 4 ymd.1.toNat ++ '-' :: pad 2 ymd.2.1.toNat ++ '-' :: pad 2 ymd.2.2.toNat ++
    ' ' :: pad 2 (rem / 3600) ++ ':' :: pad 2 (rem % 3600 / 60)

def digitsVal (ds : List Char) : Nat :=
  ds.foldl (fun a c => 10 * a + (c.toNat - '0'.toNat)) 0

/-- The rational value of a finite JSON number lexeme; `none` for `NaN`
and the infinities (and anything without digits). -/
def numVal (lex : List Char) : Option ℚ :=
  let (sgn, l1) :=
    match lex with
    | '-' :: r => ((-1 : ℚ), r)
    | _ => ((1 : ℚ), lex)
  let ip := l1.takeWhile Char.isDigit
  if ip.isEmpty then none
  else
    let r1 := l1.dropWhile Char.isDigit
    let (fd, r2) :=
      match r1 with
      | '.' :: r => (r.takeWhile Char.isDigit, r.dropWhile Char.isDigit)
      | _ => (([] : List Char), r1)
    let e : Int :=
      match r2 with
      | 'e' :: '-' :: r => -(digitsVal (r.takeWhile Char.isDigit) : Int)
      | 'E' :: '-' :: r => -(digitsVal (r.takeWhile Char.isDigit) : Int)
      | 'e' :: '+' :: r => (digitsVal (r.takeWhile Char.isDigit) : Int)
      | 'E' :: '+' :: r => (digitsVal (r.takeWhile Char.isDigit) : Int)
      | 'e' :: r => (digitsVal (r.takeWhile Char.isDigit) : Int)
      | 'E' :: r => (digitsVal (r.takeWhile Char.isDigit) : Int)
      | _ => 0
    let base : ℚ :=
      sgn * ((digitsVal ip : ℚ) + (digitsVal fd : ℚ) / ((10 : ℚ) ^ fd.length))
    some (if 0 ≤ e then base * (10 : ℚ) ^ e.toNat else base / (10 : ℚ) ^ (-e).toNat)

/-- Values accepted by Python numeric addition here: numbers and bools. -/
def isNumericJ : JVal → Bool
  | .num _ => true
  | .bool _ => true
  | _ => false

def numValOf : JVal → Option ℚ
  | .num lex => numVal lex
  | .bool true => some 1
  | .bool false => some 0
  | _ => none

/-- Step 4 of `execute_tool` (build result with local time).  The lookups
of `temp`, `feels_like`, `humidity` and `speed` happen after the `try`
block in the source and therefore raise out of the function when they
fail. -/
def weatherResult (wx : JVal) (city cc : List Char) : Except (List Char) JVal :=
  match wx with
  | JVal.obj w =>
    match jlookup w ("dt".toList) with
    | none => Except.ok (errObj owmFormatMsg)
    | some dtV =>
      let tzV := (jlookup w ("timezone".toList)).getD (JVal.num ['0'])
      if isNumericJ dtV && isNumericJ tzV then
        match numValOf dtV, numValOf tzV with
        | some a, some b =>
          let localStr := fmtUtcMinutes (a + b)
          match jlookup w ("main".toList), jlookup w ("wind".toList),
              jlookup w ("weather".toList) with
          | some mainV, some windV, some weatherV =>
            match weatherV with
            | JVal.arr (w0 :: _) =>
              match w0 with
              | JVal.obj w0m =>
                match jlookup w0m ("description".toList) with
                | some desc =>
                  match mainV with
                  | JVal.obj mm =>
                    match jlookup mm ("temp".toList), jlookup mm ("feels_like".toList),
                        jlookup mm ("humidity".toList) with
                    | some tV, some flV, some hV =>
                      match windV with
                      | JVal.obj wm =>
                        match jlookup wm ("speed".toList) with
                        | some spV =>
                          Except.ok (JVal.obj
                            [("location".toList, JVal.str (city ++ ',' :: ' ' :: upperStr cc)),
                             ("local_time".toList, JVal.str localStr),
                             ("temperature".toList, tV),
                             ("feels_like".toList, flV),
                             ("humidity".toList, hV),
                             ("wind_speed".toList, spV),
                             ("description".toList, desc)])
                        | none => Except.error ("KeyError: speed".toList)
                      | _ => Except.error ("TypeError: wind is not a dict".toList)
                    | _, _, _ =>
                      Except.error ("KeyError: temp, feels_like or humidity".toList)
                  | _ => Except.error ("TypeError: main is not a dict".toList)
                | none => Except.ok (errObj owmFormatMsg)
              | _ => Except.ok (errObj owmFormatMsg)
            | _ => Except.ok (errObj owmFormatMsg)
          | _, _, _ => Except.ok (errObj owmFormatMsg)
        | _, _ => Except.error ("ValueError: invalid timestamp".toList)
      else Except.ok (errObj owmFormatMsg)
  | _ => Except.ok (errObj owmFormatMsg)

/-- `execute_tool` of the weather tool. -/
def executeTool (o : HttpOracle) (toolName : JVal) (parameters : JVal) :
    Except (List Char) JVal × Nat :=
  match toolName with
  | JVal.str s =>
    if s == "weather".toList then
      match parameters with
      | JVal.obj kvs =>
        match (jlookup kvs ("location".toList)).getD (JVal.str []) with
        | JVal.str rawLoc =>
          let loc := stripWs rawLoc
          if !(loc.contains ',') then (Except.ok (errObj locFormatMsg), 0)
          else
            let city := locCity loc
            let cc := locCC loc
            if !(cc.length == 2) then (Except.ok (errObj ccFormatMsg), 0)
            else
              match o.geo (city ++ ',' :: cc) with
              | Except.error e =>
                (Except.ok (errObj ("Geocoding failed: ".toList ++ e)), 1)
              | Except.ok g =>
                if !g.truthy then
                  (Except.ok (errObj ("Location not found: ".toList ++ city ++
                    ',' :: ' ' :: upperStr cc)), 1)
                else
                  match g with
                  | JVal.arr (g0 :: _) =>
                    match g0 with
                    | JVal.obj g0m =>
                      match jlookup g0m ("lat".toList), jlookup g0m ("lon".toList) with
                      | some lat, some lon =>
                        match o.current lat lon with
                        | Except.error e =>
                          (Except.ok (errObj ("Weather request failed: ".toList ++ e)), 2)
                        | Except.ok wx => (weatherResult wx city cc, 2)
                      | _, _ => (Except.error ("KeyError: lat or lon".toList), 1)
                    | _ => (Except.error ("TypeError: geocode entry is not a dict".toList), 1)
                  | _ => (Except.error ("TypeError: geocode result is not a list".toList), 1)
        | _ => (Except.error ("AttributeError: location value has no strip".toList), 0)
      | _ => (Except.error ("AttributeError: parameters has no get".toList), 0)
    else (Except.ok (errObj ("Unknown tool: ".toList ++ s)), 0)
  | other => (Except.ok (errObj ("Unknown tool: ".toList ++ pyStr other)), 0)

/-! ### mcp_client MCPClient.call_tool and MCPOrchestrator.handle_tool_call

The MCP session is an oracle returning the tool-call outcome; the `Nat`
component counts calls placed on the channel. -/

inductive CallOutcome where
  | ok (text : List Char)
  | err (text : List Char)
  | raised (msg : List Char)

/-- `MCPClient.call_tool`. -/
def callTool (connected : Bool) (available : List (List Char))
    (oracle : List Char → List (List Char × List Char) → CallOutcome)
    (name : List Char) (args : List (List Char × List Char)) : JVal × Nat :=
  if !connected then (errObj ("Not connected to MCP server".toList), 0)
  else if !(available.contains name) then
    (errObj ("Tool ".toList ++ sqc :: name ++ sqc :: " not available".toList), 0)
  else
    match oracle name args with
    | .ok t => (JVal.obj [("result".toList, JVal.str t)], 1)
    | .err t => (errObj t, 1)
    | .raised m => (errObj ("Tool call failed: ".toList ++ m), 1)

/-- `MCPOrchestrator.handle_tool_call`. -/
def handleToolCall (toolsEnabled connected : Bool) (available : List (List Char))
    (oracle : List Char → List (List Char × List Char) → CallOutcome)
    (name : List Char) (args : List (List Char × List Char)) : JVal × Nat :=
  if !toolsEnabled then (errObj ("Tools are disabled".toList), 0)
  else if !connected then (errObj ("MCP server not connected".toList), 0)
  else callTool connected available oracle name args

/-! ### The two stream_chat generators

A generation pass is modelled by the list of tokens the model produced
plus an optional exception raised while pulling them (`GenOutcome`); both
generators accumulate the full response before emitting anything, so an
exception during generation suppresses all content events.  Events are
the dictionaries yielded by the Python generators. -/

inductive Event where
  | token (content : List Char)
  | toolCallJ (name : JVal) (params : JVal)
  | toolCallS (name : List Char) (params : List (List Char × List Char))
  | toolResult (result : JVal)
  | error (content : List Char)
  | stop

def Event.isStopB : Event → Bool
  | .stop => true
  | _ => false

def Event.isErrorB : Event → Bool
  | .error _ => true
  | _ => false

def Event.isToolB : Event → Bool
  | .toolCallJ _ _ => true
  | .toolCallS _ _ => true
  | .toolResult _ => true
  | _ => false

structure GenOutcome where
  tokens : List (List Char)
  exc : Option (List Char)

/-- `response_text += token` over the whole stream. -/
def joinTokens : List (List Char) → List Char
  | [] => []
  | t :: ts => t ++ joinTokens ts

/-- Word-by-word content events: each word carries one trailing space. -/
def wordTokens (s : List Char) : List Event :=
  (splitWs s).map fun w => Event.token (w ++ [' '])

def llamaNotice : List Char :=
  ("\n\nSorry, the weather tool is not currently enabled. " ++
   "Please enable it using the toggle above to use this feature.").toList

def chatNotice : List Char :=
  ("\n\nSorry, tools are not currently enabled. " ++
   "Please enable the weather tool to use this feature.").toList

/-- Everything `LlamaClient.stream_chat` yields inside its `try`/`except`
(the terminal `end` event is appended by `streamChatL`). -/
def streamBodyL (o : HttpOracle) (src : GenOutcome) (toolsEnabled : Bool) :
    List Event :=
  match src.exc with
  | some m => [Event.token ("Error: ".toList ++ m)]
  | none =>
    match extractToolCall (joinTokens src.tokens) with
    | (some tn, some ps, clean) =>
      if tn.truthy && ps.truthy then
        (if (stripWs clean).isEmpty then [] else wordTokens clean) ++
        (if toolsEnabled then
          Event.toolCallJ tn ps ::
            (match executeTool o tn ps with
             | (Except.ok r, _) => [Event.toolResult r]
             | (Except.error m, _) => [Event.token ("Error: ".toList ++ m)])
         else [Event.token llamaNotice])
      else wordTokens (joinTokens src.tokens)
    | (_, _, _) => wordTokens (joinTokens src.tokens)

/-- `LlamaClient.stream_chat` (chat_service/llama_client.py). -/
def streamChatL (o : HttpOracle) (src : GenOutcome) (toolsEnabled : Bool) :
    List Event :=
  streamBodyL o src toolsEnabled ++ [Event.stop]

/-- Everything `ChatService.stream_chat` yields inside its `try`/`except`. -/
def streamBodyC (handle : List Char → List (List Char × List Char) → JVal)
    (src : GenOutcome) (toolsEnabled : Bool) : List Event :=
  match src.exc with
  | some m => [Event.error ("Generation error: ".toList ++ m)]
  | none =>
    match extractFunctionCall (joinTokens src.tokens) with
    | (some fn, some ps, clean) =>
      if !fn.isEmpty && !ps.isEmpty then
        (if (stripWs clean).isEmpty then [] else wordTokens clean) ++
        (if toolsEnabled && fn == "weather".toList then
          [Event.toolCallS fn ps, Event.toolResult (handle fn ps)]
         else [Event.token chatNotice])
      else wordTokens (joinTokens src.tokens)
    | (_, _, _) => wordTokens (joinTokens src.tokens)

/-- `ChatService.stream_chat` (chat_service/chat_handler.py).  With the
model uninitialized the generator yields a single error event and
returns, never reaching the terminal `end` event. -/
def streamChatC (handle : List Char → List (List Char × List Char) → JVal)
    (initialized : Bool) (src : GenOutcome) (toolsEnabled : Bool) : List Event :=
  if initialized then streamBodyC handle src toolsEnabled ++ [Event.stop]
  else [Event.error ("Model not initialized".toList)]

/-- An inert HTTP oracle, used to instantiate theorems at concrete inputs. -/
def trivialOracle : HttpOracle where
  geo := fun _ => Except.error []
  current := fun _ _ => Except.error []

/-! ### Supporting lemmas -/

theorem dropWhile_append_all {α : Type} {p : α → Bool} :
    ∀ {l₁ : List α} (l₂ : List α), (∀ c ∈ l₁, p c = true) →
      (l₁ ++ l₂).dropWhile p = l₂.dropWhile p := by
  intro l₁
  induction l₁ with
  | nil => intro l₂ _; rfl
  | cons a l ih =>
    intro l₂ h
    have ha : p a = true := h a (List.mem_cons_self a l)
    simp only [List.cons_append, List.dropWhile_cons, ha, if_true]
    exact ih l₂ fun c hc => h c (List.mem_cons_of_mem a hc)

theorem takeWhile_append_all {α : Type} {p : α → Bool} :
    ∀ {l₁ : List α} (l₂ : List α), (∀ c ∈ l₁, p c = true) →
      (l₁ ++ l₂).takeWhile p = l₁ ++ l₂.takeWhile p := by
  intro l₁
  induction l₁ with
  | nil => intro l₂ _; rfl
  | cons a l ih =>
    intro l₂ h
    have ha : p a = true := h a (List.mem_cons_self a l)
    simp only [List.cons_append, List.takeWhile_cons, ha, if_true]
    simp [ih l₂ fun c hc => h c (List.mem_cons_of_mem a hc)]

theorem dropWhile_eq_nil_all {α : Type} {p : α → Bool} :
    ∀ {l : List α}, (∀ c ∈ l, p c = true) → l.dropWhile p = [] := by
  intro l
  induction l with
  | nil => intro _; rfl
  | cons a l ih =>
    intro h
    have ha : p a = true := h a (List.mem_cons_self a l)
    simp only [List.dropWhile_cons, ha, if_true]
    exact ih fun c hc => h c (List.mem_cons_of_mem a hc)

theorem depthOf_nil : depthOf [] = 0 := rfl

theorem depthOf_cons (c : Char) (s : List Char) :
    depthOf (c :: s) =
      (if c == '\x7b' then 1 else if c == '\x7d' then -1 else 0) + depthOf s := by
  by_cases h1 : c = '\x7b'
  · subst h1; simp [depthOf, List.countP_cons]; ring
  · by_cases h2 : c = '\x7d'
    · subst h2; simp [depthOf, List.countP_cons]; ring
    · simp [depthOf, List.countP_cons, h1, h2]

theorem scanSpan_eq_append : ∀ {s : List Char} {d : Int} {p r : List Char},
    scanSpan d s = some (p, r) → s = p ++ r := by
  intro s
  induction s with
  | nil => intro d p r h; simp [scanSpan] at h
  | cons c cs ih =>
    intro d p r h
    unfold scanSpan at h
    split at h
    · split at h
      next p' r' heq =>
        simp only [Option.some.injEq, Prod.mk.injEq] at h
        obtain ⟨rfl, rfl⟩ := h
        simp [ih heq]
      next => exact absurd h (by simp)
    · split at h
      · split at h
        · simp only [Option.some.injEq, Prod.mk.injEq] at h
          obtain ⟨rfl, rfl⟩ := h
          rfl
        · split at h
          next p' r' heq =>
            simp only [Option.some.injEq, Prod.mk.injEq] at h
            obtain ⟨rfl, rfl⟩ := h
            simp [ih heq]
          next => exact absurd h (by simp)
      · split at h
        next p' r' heq =>
          simp only [Option.some.injEq, Prod.mk.injEq] at h
          obtain ⟨rfl, rfl⟩ := h
          simp [ih heq]
        next => exact absurd h (by simp)

theorem scanSpan_append_right : ∀ {s : List Char} {d : Int} {p r : List Char}
    (t : List Char), scanSpan d s = some (p, r) →
    scanSpan d (s ++ t) = some (p, r ++ t) := by
  intro s
  induction s with
  | nil => intro d p r t h; simp [scanSpan] at h
  | cons c cs ih =>
    intro d p r t h
    unfold scanSpan at h
    rw [List.cons_append]
    unfold scanSpan
    by_cases hb : c == '\x7b'
    · rw [if_pos hb] at h ⊢
      cases hsc : scanSpan (d + 1) cs with
      | none => rw [hsc] at h; simp at h
      | some pr =>
        obtain ⟨p', r'⟩ := pr
        rw [hsc] at h
        simp only [Option.some.injEq, Prod.mk.injEq] at h
        obtain ⟨rfl, rfl⟩ := h
        rw [ih t hsc]
    · rw [if_neg hb] at h ⊢
      by_cases hcb : c == '\x7d'
      · rw [if_pos hcb] at h ⊢
        by_cases hd : d - 1 = 0
        · rw [if_pos hd] at h ⊢
          simp only [Option.some.injEq, Prod.mk.injEq] at h
          obtain ⟨rfl, rfl⟩ := h
          rfl
        · rw [if_neg hd] at h ⊢
          cases hsc : scanSpan (d - 1) cs with
          | none => rw [hsc] at h; simp at h
          | some pr =>
            obtain ⟨p', r'⟩ := pr
            rw [hsc] at h
            simp only [Option.some.injEq, Prod.mk.injEq] at h
            obtain ⟨rfl, rfl⟩ := h
            rw [ih t hsc]
      · rw [if_neg hcb] at h ⊢
        cases hsc : scanSpan d cs with
        | none => rw [hsc] at h; simp at h
        | some pr =>
          obtain ⟨p', r'⟩ := pr
          rw [hsc] at h
          simp only [Option.some.injEq, Prod.mk.injEq] at h
          obtain ⟨rfl, rfl⟩ := h
          rw [ih t hsc]

theorem scanSpan_depth : ∀ {s : List Char} {d : Int} {p r : List Char},
    scanSpan d s = some (p, r) → d + depthOf p = 0 := by
  intro s
  induction s with
  | nil => intro d p r h; simp [scanSpan] at h
  | cons c cs ih =>
    intro d p r h
    unfold scanSpan at h
    by_cases hb : c == '\x7b'
    · rw [if_pos hb] at h
      cases hsc : scanSpan (d + 1) cs with
      | none => rw [hsc] at h; simp at h
      | some pr =>
        obtain ⟨p', r'⟩ := pr
        rw [hsc] at h
        simp only [Option.some.injEq, Prod.mk.injEq] at h
        obtain ⟨rfl, rfl⟩ := h
        have := ih hsc
        rw [depthOf_cons, if_pos hb]
        omega
    · rw [if_neg hb] at h
      by_cases hcb : c == '\x7d'
      · rw [if_pos hcb] at h
        by_cases hd : d - 1 = 0
        · rw [if_pos hd] at h
          simp only [Option.some.injEq, Prod.mk.injEq] at h
          obtain ⟨rfl, rfl⟩ := h
          rw [depthOf_cons, if_neg hb, if_pos hcb, depthOf_nil]
          omega
        · rw [if_neg hd] at h
          cases hsc : scanSpan (d - 1) cs with
          | none => rw [hsc] at h; simp at h
          | some pr =>
            obtain ⟨p', r'⟩ := pr
            rw [hsc] at h
            simp only [Option.some.injEq, Prod.mk.injEq] at h
            obtain ⟨rfl, rfl⟩ := h
            have := ih hsc
            rw [depthOf_cons, if_neg hb, if_pos hcb]
            omega
      · rw [if_neg hcb] at h
        cases hsc : scanSpan d cs with
        | none => rw [hsc] at h; simp at h
        | some pr =>
          obtain ⟨p', r'⟩ := pr
          rw [hsc] at h
          simp only [Option.some.injEq, Prod.mk.injEq] at h
          obtain ⟨rfl, rfl⟩ := h
          have := ih hsc
          rw [depthOf_cons, if_neg hb, if_neg hcb]
          omega

theorem scanSpan_prefix_pos : ∀ {s : List Char} {d : Int} {p r : List Char},
    1 ≤ d → scanSpan d s = some (p, r) →
    ∀ q t, p = q ++ t → q ≠ [] → t ≠ [] → 1 ≤ d + depthOf q := by
  intro s
  induction s with
  | nil => intro d p r _ h; simp [scanSpan] at h
  | cons c cs ih =>
    intro d p r hd h q t hqt hq ht
    unfold scanSpan at h
    by_cases hb : c == '\x7b'
    · rw [if_pos hb] at h
      cases hsc : scanSpan (d + 1) cs with
      | none => rw [hsc] at h; simp at h
      | some pr =>
        obtain ⟨p', r'⟩ := pr
        rw [hsc] at h
        simp only [Option.some.injEq, Prod.mk.injEq] at h
        obtain ⟨hp, rfl⟩ := h
        cases q with
        | nil => exact absurd rfl hq
        | cons c0 q' =>
          rw [← hp, List.cons_append] at hqt
          injection hqt with hc0 hrest
          subst hc0
          rw [depthOf_cons, if_pos hb]
          cases hq' : q' with
          | nil => rw [depthOf_nil]; omega
          | cons x xs =>
            rw [hq'] at hrest
            have h1 : 1 ≤ (d + 1) + depthOf (x :: xs) :=
              ih (by omega) hsc (x :: xs) t hrest (List.cons_ne_nil x xs) ht
            omega
    · rw [if_neg hb] at h
      by_cases hcb : c == '\x7d'
      · rw [if_pos hcb] at h
        by_cases hdz : d - 1 = 0
        · rw [if_pos hdz] at h
          simp only [Option.some.injEq, Prod.mk.injEq] at h
          obtain ⟨hp, rfl⟩ := h
          cases q with
          | nil => exact absurd rfl hq
          | cons c0 q' =>
            rw [← hp, List.cons_append] at hqt
            injection hqt with hc0 hrest
            have : q' = [] ∧ t = [] := by
              constructor
              · cases q' with
                | nil => rfl
                | cons x xs => simp at hrest
              · cases q' with
                | nil => simpa using hrest.symm
                | cons x xs => simp at hrest
            exact absurd this.2 ht
        · rw [if_neg hdz] at h
          cases hsc : scanSpan (d - 1) cs with
          | none => rw [hsc] at h; simp at h
          | some pr =>
            obtain ⟨p', r'⟩ := pr
            rw [hsc] at h
            simp only [Option.some.injEq, Prod.mk.injEq] at h
            obtain ⟨hp, rfl⟩ := h
            cases q with
            | nil => exact absurd rfl hq
            | cons c0 q' =>
              rw [← hp, List.cons_append] at hqt
              injection hqt with hc0 hrest
              subst hc0
              rw [depthOf_cons, if_neg hb, if_pos hcb]
              cases hq' : q' with
              | nil => rw [depthOf_nil]; omega
              | cons x xs =>
                rw [hq'] at hrest
                have h1 : 1 ≤ (d - 1) + depthOf (x :: xs) :=
                  ih (by omega) hsc (x :: xs) t hrest (List.cons_ne_nil x xs) ht
                omega
      · rw [if_neg hcb] at h
        cases hsc : scanSpan d cs with
        | none => rw [hsc] at h; simp at h
        | some pr =>
          obtain ⟨p', r'⟩ := pr
          rw [hsc] at h
          simp only [Option.some.injEq, Prod.mk.injEq] at h
          obtain ⟨hp, rfl⟩ := h
          cases q with
          | nil => exact absurd rfl hq
          | cons c0 q' =>
            rw [← hp, List.cons_append] at hqt
            injection hqt with hc0 hrest
            subst hc0
            rw [depthOf_cons, if_neg hb, if_neg hcb]
            cases hq' : q' with
            | nil => rw [depthOf_nil]; omega
            | cons x xs =>
              rw [hq'] at hrest
              have h1 : 1 ≤ d + depthOf (x :: xs) :=
                ih hd hsc (x :: xs) t hrest (List.cons_ne_nil x xs) ht
              omega

theorem candidateOf_decomp {before body after : List Char}
    (hB : ∀ c ∈ before, notBrace c = true)
    (hSpan : scanSpan 0 ('\x7b' :: body) = some ('\x7b' :: body, [])) :
    candidateOf (before ++ ('\x7b' :: body) ++ after) = some ('\x7b' :: body, after) ∧
    (before ++ ('\x7b' :: body) ++ after).takeWhile notBrace = before := by
  have hnb : ¬ notBrace '\x7b' = true := by simp [notBrace]
  have hdw : (before ++ ('\x7b' :: body) ++ after).dropWhile notBrace
      = '\x7b' :: (body ++ after) := by
    rw [List.append_assoc, dropWhile_append_all _ hB, List.cons_append,
      List.dropWhile_cons_of_neg hnb]
  constructor
  · unfold candidateOf
    rw [hdw]
    have h2 := scanSpan_append_right after hSpan
    simpa using h2
  · rw [List.append_assoc, takeWhile_append_all _ hB, List.cons_append,
      List.takeWhile_cons_of_neg hnb]
    simp

theorem properPrefixesPos_of_scanSpan {body : List Char}
    (hSpan : scanSpan 0 ('\x7b' :: body) = some ('\x7b' :: body, [])) :
    properPrefixesPos ('\x7b' :: body) = true := by
  have hb : scanSpan 1 body = some (body, []) := by
    unfold scanSpan at hSpan
    rw [if_pos (by rfl)] at hSpan
    cases hsc : scanSpan (0 + 1) body with
    | none => rw [hsc] at hSpan; simp at hSpan
    | some pr =>
      obtain ⟨p', r'⟩ := pr
      rw [hsc] at hSpan
      simp only [Option.some.injEq, Prod.mk.injEq, List.cons.injEq, true_and] at hSpan
      obtain ⟨hp, hr⟩ := hSpan
      rw [hp, hr] at hsc
      simpa using hsc
  rw [properPrefixesPos, List.all_eq_true]
  intro q hq
  rw [List.mem_inits] at hq
  obtain ⟨t, hqt⟩ := hq
  by_cases hqe : q = []
  · subst hqe; simp
  by_cases hqq : q = '\x7b' :: body
  · subst hqq; simp
  have ht : t ≠ [] := by
    intro h0; rw [h0, List.append_nil] at hqt; exact hqq hqt
  have hpos : 1 ≤ depthOf q := by
    cases q with
    | nil => exact absurd rfl hqe
    | cons c0 q' =>
      rw [List.cons_append] at hqt
      injection hqt with hc0 hrest
      subst hc0
      rw [depthOf_cons, if_pos (by rfl)]
      cases hq' : q' with
      | nil => rw [depthOf_nil]; omega
      | cons x xs =>
        rw [hq'] at hrest
        have h1 : 1 ≤ 1 + depthOf (x :: xs) :=
          scanSpan_prefix_pos (by omega) hb (x :: xs) t hrest.symm
            (List.cons_ne_nil x xs) ht
        omega
  simp [hpos]

/-- C1 (amended): on a text narrative-before ++ invocation ++ narrative-after
where the narrative before the invocation contains no opening brace and the
invocation is exactly a minimal balanced-brace span parsing as a JSON object
with `tool_name` and `parameters` members, `_extract_tool_call` returns those
two member values and a remaining text equal to narrative-before concatenated
with narrative-after with every whitespace run collapsed to a single space
and trimmed at both ends (`normWs`). -/
theorem c1_roundtrip_extract (before inv after : List Char)
    (hB : ∀ c ∈ before, c ≠ '\x7b')
    (hHead : inv.head? = some '\x7b')
    (hSpan : scanSpan 0 inv = some (inv, []))
    (kvs : List (List Char × JVal)) (nm ps : JVal)
    (hParse : jsonParse inv = some (JVal.obj kvs))
    (hNm : jlookup kvs ("tool_name".toList) = some nm)
    (hPs : jlookup kvs ("parameters".toList) = some ps) :
    extractToolCall (before ++ inv ++ after)
      = (some nm, some ps, normWs (before ++ after)) := by
  have hB' : ∀ c ∈ before, notBrace c = true := by
    intro c hc; simp [notBrace, hB c hc]
  cases inv with
  | nil => simp at hHead
  | cons c0 body =>
    have hc0 : c0 = '\x7b' := by simpa using hHead
    subst hc0
    obtain ⟨hcand, htake⟩ := candidateOf_decomp hB' hSpan
    unfold extractToolCall
    rw [hcand]
    simp only [hParse, htake, hNm, hPs, Option.getD_some]

/-- Witness for C1: a concrete narrative with an embedded weather invocation
round-trips as the amended claim states. -/
theorem c1_roundtrip_extract_witness :
    extractToolCall (("Sure thing. ").toList ++
        ("\x7b\"tool_name\": \"weather\", \"parameters\": \x7b\"location\": \"Paris, FR\"\x7d\x7d").toList ++
        (" Done.").toList)
      = (some (JVal.str ("weather".toList)),
         some (JVal.obj [("location".toList, JVal.str ("Paris, FR".toList))]),
         normWs (("Sure thing. ").toList ++ (" Done.").toList)) :=
  c1_roundtrip_extract _ _ _ (by decide) (by rfl) (by rfl)
    [("tool_name".toList, JVal.str ("weather".toList)),
     ("parameters".toList, JVal.obj [("location".toList, JVal.str ("Paris, FR".toList))])]
    _ _ (by rfl) (by rfl) (by rfl)

/-- C1 counterexample: with a brace pair inside the narrative before a
perfectly well-formed invocation, `_extract_tool_call` detects nothing and
returns the text unchanged, because the first balanced candidate is the
narrative brace pair and the scan never retries; so the claim fails as
stated over all narrative text. -/
theorem c1_counterexample :
    extractToolCall (("Note \x7bx\x7d then ").toList ++
        ("\x7b\"tool_name\": \"weather\", \"parameters\": \x7b\"location\": \"Paris, FR\"\x7d\x7d").toList ++
        (" end").toList)
      = (none, none,
         ("Note \x7bx\x7d then ").toList ++
         ("\x7b\"tool_name\": \"weather\", \"parameters\": \x7b\"location\": \"Paris, FR\"\x7d\x7d").toList ++
         (" end").toList)
    ∧ jsonParse (("\x7b\"tool_name\": \"weather\", \"parameters\": \x7b\"location\": \"Paris, FR\"\x7d\x7d").toList)
      = some (JVal.obj [("tool_name".toList, JVal.str ("weather".toList)),
          ("parameters".toList, JVal.obj [("location".toList, JVal.str ("Paris, FR".toList))])]) :=
  ⟨rfl, rfl⟩

/-- C2: on a text whose first opening brace starts a well-formed invocation
with nested braces inside its parameters, `_extract_tool_call` matches the
outer balanced span (the whole invocation): the candidate runs from the
first opening brace to the closing brace at which the nesting depth returns
to zero (`depthOf inv = 0`, and every nonempty proper prefix of the span
keeps positive depth, so no earlier closing brace ends it), and the whole
span is what is parsed as the invocation. -/
theorem c2_balanced_span (before inv after : List Char)
    (hB : ∀ c ∈ before, c ≠ '\x7b')
    (hHead : inv.head? = some '\x7b')
    (hSpan : scanSpan 0 inv = some (inv, []))
    (hNested : '\x7b' ∈ inv.tail)
    (kvs : List (List Char × JVal))
    (hParse : jsonParse inv = some (JVal.obj kvs)) :
    candidateOf (before ++ inv ++ after) = some (inv, after)
    ∧ depthOf inv = 0
    ∧ properPrefixesPos inv = true
    ∧ extractToolCall (before ++ inv ++ after)
        = (jlookup kvs ("tool_name".toList),
           some ((jlookup kvs ("parameters".toList)).getD (JVal.obj [])),
           normWs (before ++ after)) := by
  have hB' : ∀ c ∈ before, notBrace c = true := by
    intro c hc; simp [notBrace, hB c hc]
  cases inv with
  | nil => simp at hHead
  | cons c0 body =>
    have hc0 : c0 = '\x7b' := by simpa using hHead
    subst hc0
    obtain ⟨hcand, htake⟩ := candidateOf_decomp hB' hSpan
    refine ⟨hcand, ?_, properPrefixesPos_of_scanSpan hSpan, ?_⟩
    · have := scanSpan_depth hSpan
      omega
    · unfold extractToolCall
      rw [hcand]
      simp only [hParse, htake]

/-- Witness for C2: an invocation whose parameters object opens a nested
brace pair is matched over its whole span. -/
theorem c2_balanced_span_witness :
    candidateOf (("Wait. ").toList ++
        ("\x7b\"tool_name\": \"weather\", \"parameters\": \x7b\"location\": \"San Juan, PR\"\x7d\x7d").toList ++
        (" ok").toList)
      = some (("\x7b\"tool_name\": \"weather\", \"parameters\": \x7b\"location\": \"San Juan, PR\"\x7d\x7d").toList,
              (" ok").toList)
    ∧ depthOf (("\x7b\"tool_name\": \"weather\", \"parameters\": \x7b\"location\": \"San Juan, PR\"\x7d\x7d").toList) = 0
    ∧ properPrefixesPos (("\x7b\"tool_name\": \"weather\", \"parameters\": \x7b\"location\": \"San Juan, PR\"\x7d\x7d").toList) = true
    ∧ extractToolCall (("Wait. ").toList ++
        ("\x7b\"tool_name\": \"weather\", \"parameters\": \x7b\"location\": \"San Juan, PR\"\x7d\x7d").toList ++
        (" ok").toList)
        = (jlookup [("tool_name".toList, JVal.str ("weather".toList)),
             ("parameters".toList, JVal.obj [("location".toList, JVal.str ("San Juan, PR".toList))])]
             ("tool_name".toList),
           some ((jlookup [("tool_name".toList, JVal.str ("weather".toList)),
             ("parameters".toList, JVal.obj [("location".toList, JVal.str ("San Juan, PR".toList))])]
             ("parameters".toList)).getD (JVal.obj [])),
           normWs (("Wait. ").toList ++ (" ok").toList)) :=
  c2_balanced_span _ _ _ (by decide) (by rfl) (by rfl) (by decide)
    [("tool_name".toList, JVal.str ("weather".toList)),
     ("parameters".toList, JVal.obj [("location".toList, JVal.str ("San Juan, PR".toList))])]
    (by rfl)

/-- C3: a text without any opening brace is returned unchanged with no
detection (identity property of `_extract_tool_call`). -/
theorem c3_no_brace_identity (text : List Char) (h : '\x7b' ∉ text) :
    extractToolCall text = (none, none, text) := by
  have hall : ∀ c ∈ text, notBrace c = true := by
    intro c hc
    have hne : ¬ c = '\x7b' := fun he => h (he ▸ hc)
    simp [notBrace, hne]
  unfold extractToolCall candidateOf
  rw [dropWhile_eq_nil_all hall]
  simp

/-- Witness for C3: a brace-free sentence is returned untouched. -/
theorem c3_no_brace_identity_witness :
    extractToolCall (("The weather is nice today.").toList)
      = (none, none, ("The weather is nice today.").toList) :=
  c3_no_brace_identity _ (by decide)

/-- C4: `_extract_tool_call` considers only the single candidate starting at
the first opening brace: when that balanced span fails to parse as JSON the
function reports no detection and returns the text unchanged, whatever else
(including a well-formed invocation) occurs later in the text. -/
theorem c4_single_candidate (text cand after : List Char)
    (hc : candidateOf text = some (cand, after))
    (hp : jsonParse cand = none) :
    extractToolCall text = (none, none, text) := by
  unfold extractToolCall
  rw [hc]
  simp only [hp]

/-- Witness for C4: a malformed first candidate suppresses extraction even
though a well-formed invocation follows it in the same text. -/
theorem c4_single_candidate_witness :
    candidateOf (("\x7boops\x7d \x7b\"tool_name\": \"weather\", \"parameters\": \x7b\"location\": \"Paris, FR\"\x7d\x7d").toList)
      = some (("\x7boops\x7d").toList,
              (" \x7b\"tool_name\": \"weather\", \"parameters\": \x7b\"location\": \"Paris, FR\"\x7d\x7d").toList)
    ∧ jsonParse (("\x7boops\x7d").toList) = none
    ∧ extractToolCall (("\x7boops\x7d \x7b\"tool_name\": \"weather\", \"parameters\": \x7b\"location\": \"Paris, FR\"\x7d\x7d").toList)
      = (none, none,
         ("\x7boops\x7d \x7b\"tool_name\": \"weather\", \"parameters\": \x7b\"location\": \"Paris, FR\"\x7d\x7d").toList) :=
  ⟨rfl, rfl, c4_single_candidate _ _ _ rfl rfl⟩

/-- C5 (amended): with the tool gate disabled, `handle_tool_call` returns
the error mapping whose message reads "Tools are disabled" (the source
wording; the claim quoted it as "tools disabled") for every tool name and
argument mapping, and places no call on the MCP channel (call counter 0). -/
theorem c5_gate_disabled (connected : Bool) (available : List (List Char))
    (oracle : List Char → List (List Char × List Char) → CallOutcome)
    (name : List Char) (args : List (List Char × List Char)) :
    handleToolCall false connected available oracle name args
      = (errObj ("Tools are disabled".toList), 0) := rfl

/-- C5 counterexample: the message the dispatcher actually returns is
"Tools are disabled", which differs from the "tools disabled" wording the
claim states. -/
theorem c5_counterexample :
    handleToolCall false true [("weather".toList)] (fun _ _ => CallOutcome.ok [])
        ("weather".toList) []
      = (errObj ("Tools are disabled".toList), 0)
    ∧ ("Tools are disabled".toList ≠ ("tools disabled".toList)) :=
  ⟨rfl, by decide⟩

theorem mem_of_mem_stripWs {c : Char} {s : List Char} (h : c ∈ stripWs s) :
    c ∈ s := by
  unfold stripWs at h
  rw [List.mem_reverse] at h
  have h2 := List.Sublist.mem h (List.dropWhile_sublist isPyWs)
  rw [List.mem_reverse] at h2
  exact List.Sublist.mem h2 (List.dropWhile_sublist isPyWs)

/-- C6: for the weather tool, an argument mapping whose location string has
no comma, or whose region-code part after the first comma does not strip to
exactly two characters, produces an error result and issues no HTTP
request (request counter 0). -/
theorem c6_malformed_location (o : HttpOracle) (kvs : List (List Char × JVal))
    (loc : List Char)
    (hloc : jlookup kvs ("location".toList) = some (JVal.str loc))
    (hmal : loc.contains ',' = false ∨ (locCC (stripWs loc)).length ≠ 2) :
    ∃ msg, executeTool o (JVal.str ("weather".toList)) (JVal.obj kvs)
      = (Except.ok (errObj msg), 0) := by
  unfold executeTool
  simp only [hloc, Option.getD_some, beq_self_eq_true, if_true]
  cases hcomma : (stripWs loc).contains ',' with
  | false =>
    refine ⟨locFormatMsg, ?_⟩
    simp [hcomma]
  | true =>
    have hlen : (locCC (stripWs loc)).length ≠ 2 := by
      rcases hmal with hA | hB
      · exfalso
        have hmem : ',' ∈ stripWs loc := List.elem_iff.mp hcomma
        have hin : ',' ∈ loc := mem_of_mem_stripWs hmem
        rw [← List.elem_iff] at hin
        have hA' : List.elem ',' loc = false := hA
        rw [hA'] at hin
        exact Bool.false_ne_true hin
      · exact hB
    refine ⟨ccFormatMsg, ?_⟩
    have hlen2 : ((locCC (stripWs loc)).length == 2) = false := by
      simpa using hlen
    simp [hcomma, hlen2]

/-- Witness for C6: the location "San Juan" (no comma) is rejected with an
error and produces zero HTTP requests. -/
theorem c6_malformed_location_witness :
    ∃ msg, executeTool trivialOracle (JVal.str ("weather".toList))
        (JVal.obj [("location".toList, JVal.str ("San Juan".toList))])
      = (Except.ok (errObj msg), 0) :=
  c6_malformed_location trivialOracle _ _ rfl (Or.inl (by decide))

theorem countP_map_token (p : Event → Bool) (h : ∀ c, p (Event.token c) = false)
    (f : List Char → List Char) (l : List (List Char)) :
    (l.map fun w => Event.token (f w)).countP p = 0 := by
  induction l with
  | nil => rfl
  | cons a l ih => simp [List.countP_cons, h, ih]

theorem countP_wordTokens (p : Event → Bool) (h : ∀ c, p (Event.token c) = false)
    (s : List Char) : (wordTokens s).countP p = 0 :=
  countP_map_token p h _ _

theorem countP_stop_streamBodyL (o : HttpOracle) (src : GenOutcome) (tb : Bool) :
    (streamBodyL o src tb).countP Event.isStopB = 0 := by
  obtain ⟨toks, exc⟩ := src
  cases exc with
  | some m => simp [streamBodyL, List.countP_cons, Event.isStopB]
  | none =>
    unfold streamBodyL
    dsimp only
    rcases hx : extractToolCall (joinTokens toks) with ⟨tn, ps, clean⟩
    cases tn with
    | none => exact countP_wordTokens _ (fun _ => rfl) _
    | some tnv =>
      cases ps with
      | none => exact countP_wordTokens _ (fun _ => rfl) _
      | some psv =>
        dsimp only
        by_cases hg : (tnv.truthy && psv.truthy) = true
        · rw [if_pos hg, List.countP_append]
          have h1 : (if (stripWs clean).isEmpty then ([] : List Event)
              else wordTokens clean).countP Event.isStopB = 0 := by
            split
            · rfl
            · exact countP_wordTokens _ (fun _ => rfl) _
          rw [h1]
          by_cases htb : tb = true
          · rw [if_pos htb]
            rcases hex : executeTool o tnv psv with ⟨res, n⟩
            cases res <;> simp [List.countP_cons, Event.isStopB]
          · rw [if_neg htb]
            simp [List.countP_cons, Event.isStopB]
        · rw [if_neg hg]
          exact countP_wordTokens _ (fun _ => rfl) _

theorem countP_stop_streamBodyC
    (handle : List Char → List (List Char × List Char) → JVal)
    (src : GenOutcome) (tb : Bool) :
    (streamBodyC handle src tb).countP Event.isStopB = 0 := by
  obtain ⟨toks, exc⟩ := src
  cases exc with
  | some m => simp [streamBodyC, List.countP_cons, Event.isStopB]
  | none =>
    unfold streamBodyC
    dsimp only
    rcases hx : extractFunctionCall (joinTokens toks) with ⟨fn, ps, clean⟩
    cases fn with
    | none => exact countP_wordTokens _ (fun _ => rfl) _
    | some fnv =>
      cases ps with
      | none => exact countP_wordTokens _ (fun _ => rfl) _
      | some psv =>
        dsimp only
        by_cases hg : (!fnv.isEmpty && !psv.isEmpty) = true
        · rw [if_pos hg, List.countP_append]
          have h1 : (if (stripWs clean).isEmpty then ([] : List Event)
              else wordTokens clean).countP Event.isStopB = 0 := by
            split
            · rfl
            · exact countP_wordTokens _ (fun _ => rfl) _
          rw [h1]
          split <;> simp [List.countP_cons, Event.isStopB]
        · rw [if_neg hg]
          exact countP_wordTokens _ (fun _ => rfl) _

/-- C7 (amended): an exception raised while pulling tokens is caught in both
generators and the session terminates with the final end event, with no
retry; `ChatService.stream_chat` reports it as an `error` event carrying
"Generation error: ...", while `LlamaClient.stream_chat` reports it as a
content token carrying "Error: ..." rather than an error-typed event. -/
theorem c7_generation_error (o : HttpOracle)
    (handle : List Char → List (List Char × List Char) → JVal)
    (toks : List (List Char)) (m : List Char) (tb tb2 : Bool) :
    streamChatL o ⟨toks, some m⟩ tb
      = [Event.token ("Error: ".toList ++ m), Event.stop]
    ∧ streamChatC handle true ⟨toks, some m⟩ tb2
      = [Event.error ("Generation error: ".toList ++ m), Event.stop] :=
  ⟨rfl, rfl⟩

/-- C7 counterexample: in `LlamaClient.stream_chat` (one of the two cited
implementations) a generation failure yields a content token, not an Error
event: the emitted sequence contains no error-typed event at all. -/
theorem c7_counterexample :
    streamChatL trivialOracle ⟨[], some ("boom".toList)⟩ false
      = [Event.token ("Error: boom".toList), Event.stop]
    ∧ (streamChatL trivialOracle ⟨[], some ("boom".toList)⟩ false).countP
        Event.isErrorB = 0 :=
  ⟨rfl, rfl⟩

/-- C8 (amended): provided the model is initialized (unconditionally so for
`LlamaClient.stream_chat`), every session emits exactly one end event, it is
the last event of the sequence, and this holds on the tool-call, plain-text
and exception paths alike, in both generators. -/
theorem c8_single_end (o : HttpOracle)
    (handle : List Char → List (List Char × List Char) → JVal)
    (src : GenOutcome) (tb tb2 : Bool) :
    ((streamChatL o src tb).countP Event.isStopB = 1
      ∧ (streamChatL o src tb).getLast? = some Event.stop)
    ∧ ((streamChatC handle true src tb2).countP Event.isStopB = 1
      ∧ (streamChatC handle true src tb2).getLast? = some Event.stop) := by
  refine ⟨⟨?_, ?_⟩, ⟨?_, ?_⟩⟩
  · unfold streamChatL
    rw [List.countP_append, countP_stop_streamBodyL]
    rfl
  · exact List.getLast?_concat _
  · unfold streamChatC
    rw [if_pos rfl, List.countP_append, countP_stop_streamBodyC]
    rfl
  · unfold streamChatC
    rw [if_pos rfl]
    exact List.getLast?_concat _

/-- C8 counterexample: a `ChatService.stream_chat` session whose model was
never initialized emits a single error event and returns without any end
event, so the claim fails as stated over every session. -/
theorem c8_counterexample :
    streamChatC (fun _ _ => JVal.null) false ⟨[], none⟩ false
      = [Event.error ("Model not initialized".toList)]
    ∧ (streamChatC (fun _ _ => JVal.null) false ⟨[], none⟩ false).countP
        Event.isStopB = 0 :=
  ⟨rfl, rfl⟩

/-- C9: when extraction finds a tool_name but an empty parameters mapping,
`LlamaClient.stream_chat` emits no tool_call and no tool_result whether or
not tools are enabled, and instead streams the whole original response
text, raw invocation JSON included, word by word. -/
theorem c9_empty_params_no_tool (o : HttpOracle) (toks : List (List Char))
    (tb : Bool) (tn : JVal) (clean : List Char)
    (hE : extractToolCall (joinTokens toks)
      = (some tn, some (JVal.obj []), clean)) :
    streamChatL o ⟨toks, none⟩ tb
      = wordTokens (joinTokens toks) ++ [Event.stop]
    ∧ (streamChatL o ⟨toks, none⟩ tb).countP Event.isToolB = 0 := by
  have h1 : streamChatL o ⟨toks, none⟩ tb
      = wordTokens (joinTokens toks) ++ [Event.stop] := by
    unfold streamChatL streamBodyL
    dsimp only
    rw [hE]
    simp [JVal.truthy]
  refine ⟨h1, ?_⟩
  rw [h1, List.countP_append, countP_wordTokens _ (fun _ => rfl)]
  rfl

/-- Witness for C9: a response whose invocation carries empty parameters is
streamed verbatim word by word, with no tool events, tools enabled. -/
theorem c9_empty_params_no_tool_witness :
    streamChatL trivialOracle
        ⟨[("Check: \x7b\"tool_name\": \"weather\", \"parameters\": \x7b\x7d\x7d rest").toList], none⟩ true
      = wordTokens (joinTokens
          [("Check: \x7b\"tool_name\": \"weather\", \"parameters\": \x7b\x7d\x7d rest").toList])
        ++ [Event.stop]
    ∧ (streamChatL trivialOracle
        ⟨[("Check: \x7b\"tool_name\": \"weather\", \"parameters\": \x7b\x7d\x7d rest").toList], none⟩ true).countP
        Event.isToolB = 0 :=
  c9_empty_params_no_tool trivialOracle _ true (JVal.str ("weather".toList))
    (("Check: rest").toList) (by rfl)

/-- C10: in `ChatService.stream_chat` with tools enabled, a detected
function call whose name is not "weather" yields no tool_call, no
tool_result and no dispatch (the outcome is independent of the dispatch
function): only the cleaned narrative word by word and the fixed
not-enabled notice are emitted before the end event. -/
theorem c10_unknown_tool_notice
    (handle : List Char → List (List Char × List Char) → JVal)
    (toks : List (List Char)) (fn clean : List Char)
    (ps : List (List Char × List Char))
    (hE : extractFunctionCall (joinTokens toks) = (some fn, some ps, clean))
    (hfn : fn ≠ ("weather".toList)) (hfne : fn ≠ []) (hps : ps ≠ []) :
    streamChatC handle true ⟨toks, none⟩ true
      = (if (stripWs clean).isEmpty then [] else wordTokens clean)
        ++ [Event.token chatNotice, Event.stop]
    ∧ (streamChatC handle true ⟨toks, none⟩ true).countP Event.isToolB = 0 := by
  have hfne' : fn.isEmpty = false := by
    cases fn with
    | nil => exact absurd rfl hfne
    | cons a l => rfl
  have hps' : ps.isEmpty = false := by
    cases ps with
    | nil => exact absurd rfl hps
    | cons a l => rfl
  have hbeq : (fn == ("weather".toList)) = false := beq_eq_false_iff_ne.mpr hfn
  have h1 : streamChatC handle true ⟨toks, none⟩ true
      = (if (stripWs clean).isEmpty then [] else wordTokens clean)
        ++ [Event.token chatNotice, Event.stop] := by
    unfold streamChatC streamBodyC
    rw [if_pos rfl]
    dsimp only
    rw [hE]
    have hfn2 : fn ≠ ['w', 'e', 'a', 't', 'h', 'e', 'r'] := by simpa using hfn
    simp [hfne', hps', hbeq, hfn2]
  refine ⟨h1, ?_⟩
  rw [h1, List.countP_append]
  have h2 : (if (stripWs clean).isEmpty then ([] : List Event)
      else wordTokens clean).countP Event.isToolB = 0 := by
    split
    · rfl
    · exact countP_wordTokens _ (fun _ => rfl) _
  rw [h2]
  rfl

/-- Witness for C10: a generated `time("now")` call, tools enabled, yields
only narrative tokens plus the notice, with zero tool events. -/
theorem c10_unknown_tool_notice_witness :
    streamChatC (fun _ _ => JVal.null) true
        ⟨[("I can check. time(\"now\") ok").toList], none⟩ true
      = (if (stripWs (("I can check. ok").toList)).isEmpty then []
          else wordTokens (("I can check. ok").toList))
        ++ [Event.token chatNotice, Event.stop]
    ∧ (streamChatC (fun _ _ => JVal.null) true
        ⟨[("I can check. time(\"now\") ok").toList], none⟩ true).countP
        Event.isToolB = 0 :=
  c10_unknown_tool_notice (fun _ _ => JVal.null) _ (("time").toList)
    (("I can check. ok").toList) [(("location").toList, ("now").toList)]
    (by rfl) (by decide) (by decide) (by decide)
